import Mathlib

/-!
Verification of the multi-source job-listing pipeline (`main.py`).

The Python program is embedded shallowly:

* `md5hex` is the MD5 digest (hex form) used by `hashlib.md5(url.encode()).hexdigest()`,
  implemented over the UTF-8 bytes of the input string with 32-bit arithmetic as `Nat % 2^32`.
* `urljoin` models `urllib.parse.urljoin` for the URL shapes this program produces
  (absolute hrefs, scheme-relative, host-relative and plain relative hrefs without
  dot segments).
* `matchesKeywords` is the filter expression
  `any(k.lower() in raw_title.lower() for k in KEYWORDS)` from lines 91/128.
* `bdStep`/`parse_bdjobs` and `unStep`/`parse_unjobs` embed the two parser loops;
  a card's extraction outcome and the outcome of its detail fetch / summarization
  are inputs (fields of `BdCard`/`UnCard`), since the page fetcher, the HTML library,
  the summarizer and the Telegram transport are external collaborators.
* `main_run` embeds `main`'s loop over the two configured URLs, and `main_run_hist`
  adds the uncaught history-file read/write around it.
-/

/-! ### MD5 (`hashlib.md5(...).hexdigest()`), over UTF-8 bytes, 32-bit words as `Nat % 2^32` -/

/-- UTF-8 encoding of one character, as its list of byte values (`str.encode()`). -/
def utf8EncodeChar (c : Char) : List Nat :=
  let n := c.toNat
  if n < 128 then [n]
  else if n < 2048 then [192 + n / 64, 128 + n % 64]
  else if n < 65536 then [224 + n / 4096, 128 + (n / 64) % 64, 128 + n % 64]
  else [240 + n / 262144, 128 + (n / 4096) % 64, 128 + (n / 64) % 64, 128 + n % 64]

/-- UTF-8 bytes of a string (`url.encode()`). -/
def strBytes (s : String) : List Nat :=
  (s.toList.map utf8EncodeChar).flatten

/-- `k` little-endian bytes of `v`. -/
def leBytes : Nat → Nat → List Nat
  | 0, _ => []
  | k + 1, v => (v % 256) :: leBytes k (v / 256)

/-- 32-bit left rotation (inputs below `2^32`). -/
def rotl32 (x n : Nat) : Nat :=
  ((x <<< n) % 4294967296) ||| ((x % 4294967296) >>> (32 - n))

/-- 32-bit bitwise complement (inputs below `2^32`). -/
def compl32 (x : Nat) : Nat := 4294967295 - x

/-- The 64 MD5 sine-derived round constants. -/
def md5K : List Nat :=
  [0xd76aa478, 0xe8c7b756, 0x242070db, 0xc1bdceee,
   0xf57c0faf, 0x4787c62a, 0xa8304613, 0xfd469501,
   0x698098d8, 0x8b44f7af, 0xffff5bb1, 0x895cd7be,
   0x6b901122, 0xfd987193, 0xa679438e, 0x49b40821,
   0xf61e2562, 0xc040b340, 0x265e5a51, 0xe9b6c7aa,
   0xd62f105d, 0x02441453, 0xd8a1e681, 0xe7d3fbc8,
   0x21e1cde6, 0xc33707d6, 0xf4d50d87, 0x455a14ed,
   0xa9e3e905, 0xfcefa3f8, 0x676f02d9, 0x8d2a4c8a,
   0xfffa3942, 0x8771f681, 0x6d9d6122, 0xfde5380c,
   0xa4beea44, 0x4bdecfa9, 0xf6bb4b60, 0xbebfbc70,
   0x289b7ec6, 0xeaa127fa, 0xd4ef3085, 0x04881d05,
   0xd9d4d039, 0xe6db99e5, 0x1fa27cf8, 0xc4ac5665,
   0xf4292244, 0x432aff97, 0xab9423a7, 0xfc93a039,
   0x655b59c3, 0x8f0ccc92, 0xffeff47d, 0x85845dd1,
   0x6fa87e4f, 0xfe2ce6e0, 0xa3014314, 0x4e0811a1,
   0xf7537e82, 0xbd3af235, 0x2ad7d2bb, 0xeb86d391]

/-- The 64 MD5 per-round left-rotation amounts. -/
def md5S : List Nat :=
  [7, 12, 17, 22, 7, 12, 17, 22, 7, 12, 17, 22, 7, 12, 17, 22,
   5, 9, 14, 20, 5, 9, 14, 20, 5, 9, 14, 20, 5, 9, 14, 20,
   4, 11, 16, 23, 4, 11, 16, 23, 4, 11, 16, 23, 4, 11, 16, 23,
   6, 10, 15, 21, 6, 10, 15, 21, 6, 10, 15, 21, 6, 10, 15, 21]

/-- MD5 round mixing function, by round index. -/
def md5F (i b c d : Nat) : Nat :=
  if i < 16 then (b &&& c) ||| (compl32 b &&& d)
  else if i < 32 then (d &&& b) ||| (compl32 d &&& c)
  else if i < 48 then (b ^^^ c) ^^^ d
  else c ^^^ (b ||| compl32 d)

/-- MD5 message-word index, by round index. -/
def md5G (i : Nat) : Nat :=
  if i < 16 then i
  else if i < 32 then (5 * i + 1) % 16
  else if i < 48 then (3 * i + 5) % 16
  else (7 * i) % 16

/-- 32-bit little-endian word `i` of a 64-byte block. -/
def leWord (block : List Nat) (i : Nat) : Nat :=
  block.getD (4 * i) 0 + 256 * block.getD (4 * i + 1) 0 +
    65536 * block.getD (4 * i + 2) 0 + 16777216 * block.getD (4 * i + 3) 0

/-- One MD5 round on the running `(a, b, c, d)` state. -/
def md5Round (block : List Nat) (st : Nat × Nat × Nat × Nat) (i : Nat) :
    Nat × Nat × Nat × Nat :=
  let a := st.1
  let b := st.2.1
  let c := st.2.2.1
  let d := st.2.2.2
  let f := (md5F i b c d + a + md5K.getD i 0 + leWord block (md5G i)) % 4294967296
  (d, (b + rotl32 f (md5S.getD i 0)) % 4294967296, b, c)

/-- Process one 64-byte block: 64 rounds, then add into the chaining state. -/
def md5Block (st : Nat × Nat × Nat × Nat) (block : List Nat) : Nat × Nat × Nat × Nat :=
  let r := (List.range 64).foldl (md5Round block) st
  ((st.1 + r.1) % 4294967296, (st.2.1 + r.2.1) % 4294967296,
   (st.2.2.1 + r.2.2.1) % 4294967296, (st.2.2.2 + r.2.2.2) % 4294967296)

/-- Process `k` consecutive 64-byte blocks of `bytes`. -/
def md5Blocks : Nat → List Nat → Nat × Nat × Nat × Nat → Nat × Nat × Nat × Nat
  | 0, _, st => st
  | k + 1, bytes, st => md5Blocks k (bytes.drop 64) (md5Block st (bytes.take 64))

/-- MD5 padding: a `0x80` byte, zeros to 56 mod 64, then the 64-bit LE bit length. -/
def md5Pad (msg : List Nat) : List Nat :=
  let len := msg.length
  let zeros := (64 + 56 - (len + 1) % 64) % 64
  msg ++ [128] ++ List.replicate zeros 0 ++ leBytes 8 ((8 * len) % 18446744073709551616)

/-- The 16-byte MD5 digest of a byte sequence. -/
def md5Digest (msg : List Nat) : List Nat :=
  let padded := md5Pad msg
  let st := md5Blocks (padded.length / 64) padded
    (0x67452301, 0xefcdab89, 0x98badcfe, 0x10325476)
  leBytes 4 st.1 ++ leBytes 4 st.2.1 ++ leBytes 4 st.2.2.1 ++ leBytes 4 st.2.2.2

/-- Lower-case hex digit for a value below 16. -/
def hexChar (n : Nat) : Char :=
  if n < 10 then Char.ofNat (48 + n) else Char.ofNat (87 + n)

/-- Two lower-case hex digits of a byte. -/
def byteHex (b : Nat) : List Char := [hexChar (b / 16), hexChar (b % 16)]

/-- `hashlib.md5(s.encode()).hexdigest()` (lines 94/131): the posting identifier. -/
def md5hex (s : String) : String :=
  String.mk (((md5Digest (strBytes s)).map byteHex).flatten)

/-! ### `urllib.parse.urljoin`, for the URL shapes the parsers produce -/

/-- Split a character list at the first occurrence of the sequence `://`,
returning the part before it and the part after it. -/
def splitOnSep : List Char → Option (List Char × List Char)
  | [] => none
  | ':' :: '/' :: '/' :: rest => some ([], rest)
  | c :: rest => (splitOnSep rest).map (fun p => (c :: p.1, p.2))

/-- Scheme of an absolute URL (the part before `://`). -/
def schemeOf (u : List Char) : List Char :=
  match splitOnSep u with
  | some p => p.1
  | none => []

/-- `scheme://netloc` of an absolute URL, with any path removed. -/
def siteRoot (u : List Char) : List Char :=
  match splitOnSep u with
  | some p => p.1 ++ [':', '/', '/'] ++ p.2.takeWhile (fun c => c ≠ '/')
  | none => []

/-- Everything up to and including the last `/` of a path; `/` if the path has none. -/
def dirPart (p : List Char) : List Char :=
  let kept := (p.reverse.dropWhile (fun c => c ≠ '/')).reverse
  if kept.isEmpty then ['/'] else kept

/-- Base URL with its last path segment dropped (directory of the base). -/
def baseDir (u : List Char) : List Char :=
  match splitOnSep u with
  | some p =>
    p.1 ++ [':', '/', '/'] ++ p.2.takeWhile (fun c => c ≠ '/') ++
      dirPart (p.2.dropWhile (fun c => c ≠ '/'))
  | none => []

/-- `urljoin` on character lists; see `urljoin`. -/
def urljoinL (b h : List Char) : List Char :=
  match h with
  | [] => b
  | '/' :: '/' :: _ => schemeOf b ++ [':'] ++ h
  | '/' :: _ => siteRoot b ++ h
  | _ => if (splitOnSep h).isSome then h else baseDir b ++ h

/-- `urllib.parse.urljoin(base, href)` (lines 93/130), modelled for the href shapes
this program meets: an empty href returns the base, an href containing `://` is
already absolute and returned unchanged, `//host/...` picks up the base's scheme,
`/path` picks up the base's `scheme://netloc`, and any other href is resolved
against the directory of the base's path (dot segments are not modelled, the
listing pages do not produce them). -/
def urljoin (base href : String) : String :=
  String.mk (urljoinL base.toList href.toList)

/-! ### Keyword filter (lines 91/128) -/

/-- `KEYWORDS` from lines 16-19 of `main.py`. -/
def KEYWORDS : List String :=
  ["Individual Consultant", "SIC", "Consultant", "National Consultant",
   "Individual Local Consultant", "Local Consultant", "Environment",
   "Environmental", "Natural", "Disaster", "Water", "Expert", "Program",
   "Project", "Coordinator", "Manager", "Climate", "Monitoring",
   "Evaluation", "Specialist"]

/-- Boolean list-prefix test (helper for the substring test). -/
def listIsPre : List Char → List Char → Bool
  | [], _ => true
  | _ :: _, [] => false
  | a :: n, b :: h => a == b && listIsPre n h

/-- Boolean substring test on character lists: Python's `n in h` for strings. -/
def listContains (n : List Char) : List Char → Bool
  | [] => listIsPre n []
  | b :: t => listIsPre n (b :: t) || listContains n t

/-- The filter expression `any(k.lower() in title.lower() for k in keywords)`
(lines 91/128). `Char.toLower` matches Python `str.lower` on the ASCII titles and
keywords this program handles. -/
def matchesKeywords (keywords : List String) (title : String) : Bool :=
  keywords.any (fun k =>
    listContains (k.toList.map Char.toLower) (title.toList.map Char.toLower))


/-! ### Data model of the pipeline -/

/-- The structured record `get_ai_summary` extracts: the four fields of the JSON
answer (lines 57/66). Each field is optional because the message formatting reads
them with `data.get(...)` (lines 108/146), which yields `None` for a missing key. -/
structure AiData where
  org : Option String
  edu : Option String
  exp : Option String
  sal : Option String
deriving DecidableEq

/-- Which parser produced a notification (fixes header and fields of the message). -/
inductive SourceTag where
  | bd
  | un
deriving DecidableEq

/-- One message handed to `send_telegram`, kept structured: source (fixing the
header), the raw title, the resolved absolute link, and the enrichment outcome
(`none` when `get_ai_summary` returned `None`). -/
structure Msg where
  source : SourceTag
  title : String
  link : String
  ai : Option AiData
deriving DecidableEq

/-- Python string interpolation of an optional value: `None` prints as `None`. -/
def showOpt : Option String → String
  | none => "None"
  | some s => s

/-- The text of a notification, mirroring the f-strings of lines 106-108 and
144-146: a header, the `📌 *Post:*` line with title and link, and, only when
enrichment data is present, the detail lines (`parse_unjobs` omits the salary
line). -/
def renderMsg (m : Msg) : String :=
  let hdr :=
    match m.source with
    | SourceTag.bd => "🔔 **New BdJobs Circular!**"
    | SourceTag.un => "🇺🇳 **New UN Job Detected!**"
  let base := hdr ++ "\n\n📌 *Post:* [" ++ m.title ++ "](" ++ m.link ++ ")"
  match m.ai with
  | none => base
  | some d =>
    match m.source with
    | SourceTag.bd =>
      base ++ "\n🏢 *Org:* " ++ showOpt d.org ++ "\n🎓 *Edu:* " ++ showOpt d.edu ++
        "\n⏳ *Exp:* " ++ showOpt d.exp ++ "\n💰 *Sal:* " ++ showOpt d.sal
    | SourceTag.un =>
      base ++ "\n🏢 *Org:* " ++ showOpt d.org ++ "\n🎓 *Edu:* " ++ showOpt d.edu ++
        "\n⏳ *Exp:* " ++ showOpt d.exp

/-- The mutable state threaded through a run: the in-memory `seen_jobs` set
(kept as a duplicate-free list of identifiers) and the messages handed to
`send_telegram` so far, in order. -/
structure ScanState where
  seen : List String
  sent : List Msg
deriving DecidableEq

/-- One card of the BdJobs listing page together with the outcome of the
external steps taken for it.  `title = none` models a card whose
`job-title-text` element or anchor is missing (skipped via `continue` or the
per-card `except`), `href = none` an anchor without an `href` attribute
(`KeyError`, absorbed by the per-card `except`).  `detailOk` records whether
`requests.get(full_link)` (line 103) returns without raising, and `ai` the
outcome of `get_ai_summary` (`none` when the key is unset or the request or
JSON parse failed, lines 44-45/67-68; `send_telegram` and `time.sleep` never
raise). -/
structure BdCard where
  title : Option String
  href : Option String
  detailOk : Bool
  ai : Option AiData
deriving DecidableEq

/-- One `a.jtitle` link of the UnJobs listing page, with the outcomes of its
external steps; `get_text` always returns a string, so the title is not
optional (line 125). -/
structure UnCard where
  title : String
  href : Option String
  detailOk : Bool
  ai : Option AiData
deriving DecidableEq

/-- The body of the `for card in cards` loop of `parse_bdjobs` (lines 84-111):
skip on missing title, filter, resolve the link, digest it, skip if seen,
otherwise mark seen and flag `new_found` first, then attempt the detail fetch
and send the message (a raising detail fetch is absorbed by the per-card
`except: pass`, after the posting was already marked seen).  The accumulator
pairs the `new_found` flag with the scan state. -/
def bdStep (acc : Bool × ScanState) (c : BdCard) : Bool × ScanState :=
  match c.title with
  | none => acc
  | some rawTitle =>
    if matchesKeywords KEYWORDS rawTitle then
      match c.href with
      | none => acc
      | some href =>
        let fullLink := urljoin ("https://bdjobs.com") href
        let jobId := md5hex fullLink
        if jobId ∈ acc.2.seen then acc
        else
          let seen' := jobId :: acc.2.seen
          if c.detailOk then
            (true, ⟨seen', acc.2.sent ++ [⟨SourceTag.bd, rawTitle, fullLink, c.ai⟩]⟩)
          else
            (true, ⟨seen', acc.2.sent⟩)
    else acc

/-- `parse_bdjobs(soup, seen_jobs)` (lines 79-112): fold the card-loop body over
the extracted cards, starting from `new_found = False`; returns the `new_found`
flag together with the updated state. -/
def parse_bdjobs (cards : List BdCard) (st : ScanState) : Bool × ScanState :=
  cards.foldl bdStep (false, st)

/-- The body of the `for link in links` loop of `parse_unjobs` (lines 123-149);
identical to `bdStep` up to the base URL, the message header and the title
being always present. -/
def unStep (acc : Bool × ScanState) (c : UnCard) : Bool × ScanState :=
  if matchesKeywords KEYWORDS c.title then
    match c.href with
    | none => acc
    | some href =>
      let fullLink := urljoin ("https://unjobs.org") href
      let jobId := md5hex fullLink
      if jobId ∈ acc.2.seen then acc
      else
        let seen' := jobId :: acc.2.seen
        if c.detailOk then
          (true, ⟨seen', acc.2.sent ++ [⟨SourceTag.un, c.title, fullLink, c.ai⟩]⟩)
        else
          (true, ⟨seen', acc.2.sent⟩)
  else acc

/-- `parse_unjobs(soup, seen_jobs)` (lines 115-150). -/
def parse_unjobs (cards : List UnCard) (st : ScanState) : Bool × ScanState :=
  cards.foldl unStep (false, st)

/-- The external world one run meets: what fetching and extracting each of the
two configured `URLS` yields.  `none` models `requests.get` or the page parse
raising for that source (absorbed by the per-source `except` of lines 169-170). -/
structure World where
  bdDoc : Option (List BdCard)
  unDoc : Option (List UnCard)

/-- Outcome of one `main()` run: the messages handed to `send_telegram`, the
final in-memory `seen_jobs` set, whether `save_history` was called, and the
history-file contents after the run. -/
structure RunResult where
  sent : List Msg
  finalSeen : List String
  wrote : Bool
  file : List String
deriving DecidableEq

/-- `main()` (lines 152-173): load the history, scan `https://bdjobs.com` then
`https://unjobs.org/duty_stations/bangladesh` (each inside a per-source `try`),
OR the two `new_found` flags into `files_changed`, and rewrite the history file
only when `files_changed` is set. -/
def main_run (w : World) (histFile : List String) : RunResult :=
  let p1 : Bool × ScanState :=
    match w.bdDoc with
    | none => (false, ⟨histFile, []⟩)
    | some cards => parse_bdjobs cards ⟨histFile, []⟩
  let p2 : Bool × ScanState :=
    match w.unDoc with
    | none => (false, p1.2)
    | some cards => parse_unjobs cards p1.2
  let filesChanged := p1.1 || p2.1
  ⟨p2.2.sent, p2.2.seen, filesChanged, if filesChanged then p2.2.seen else histFile⟩

/-- A failure of the only two uncaught operations of `main`: reading the
history file (line 72) or rewriting it (lines 75-76). -/
inductive HistErr where
  | readFail
  | writeFail
deriving DecidableEq

/-- `main()` including the uncaught history-file endpoints: `load_history` runs
before everything and its failure propagates out of `main`; `save_history` runs
after everything, only when `files_changed`, and its failure propagates too.
`readOk`/`saveOk` say whether those two file operations would succeed. -/
def main_run_hist (readOk : Bool) (histFile : List String) (saveOk : Bool)
    (w : World) : Except HistErr RunResult :=
  if readOk = false then Except.error HistErr.readFail
  else
    let r := main_run w histFile
    if r.wrote = true ∧ saveOk = false then Except.error HistErr.writeFail
    else Except.ok r

/-- Whether a run outcome is a raised, process-fatal error. -/
def isFatal : Except HistErr RunResult → Bool
  | Except.error _ => true
  | Except.ok _ => false

/-! ### Timeouts passed at the network call sites -/

/-- Timeout (seconds) passed to `requests.get` for a listing page (line 161). -/
def listingFetchTimeout : Option Nat := some 20

/-- Timeout passed to `requests.get` for a posting's detail page (lines 103 and
140): the call passes no `timeout` argument. -/
def detailFetchTimeout : Option Nat := none

/-- Timeout (seconds) passed to `requests.post` in `send_telegram` (line 38). -/
def telegramSendTimeout : Option Nat := some 10

/-- Timeout passed on the summarization request (line 60): the
`chat.completions.create` call passes no `timeout` argument. -/
def summaryRequestTimeout : Option Nat := none

/-- The timeouts of the four network call sites of the program, in the order
listing fetch, detail fetch, notification send, summarization request. -/
def networkTimeouts : List (Option Nat) :=
  [listingFetchTimeout, detailFetchTimeout, telegramSendTimeout, summaryRequestTimeout]

/-! ### Specification scaffolding for the fold proofs -/

/-- The identifier a BdJobs card contributes if it survives extraction and the
filter: `none` when the card is skipped before the seen-check. -/
def bdIdOf (c : BdCard) : Option String :=
  match c.title with
  | none => none
  | some t =>
    if matchesKeywords KEYWORDS t then
      c.href.map (fun href => md5hex (urljoin ("https://bdjobs.com") href))
    else none

/-- The identifier an UnJobs link contributes if it survives the filter. -/
def unIdOf (c : UnCard) : Option String :=
  if matchesKeywords KEYWORDS c.title then
    c.href.map (fun href => md5hex (urljoin ("https://unjobs.org") href))
  else none

/-- What a parser's loop body does, abstracted over the card type: a card with
no surviving identifier leaves the accumulator unchanged; a card whose
identifier is already seen leaves it unchanged; a fresh identifier is consed
onto the seen set, the flag is set, and at most one message — carrying a link
that digests to that identifier — is appended. -/
def StepSpec {α : Type} (step : Bool × ScanState → α → Bool × ScanState)
    (idOf : α → Option String) : Prop :=
  ∀ (acc : Bool × ScanState) (c : α),
    (idOf c = none → step acc c = acc) ∧
    (∀ j, idOf c = some j → j ∈ acc.2.seen → step acc c = acc) ∧
    (∀ j, idOf c = some j → j ∉ acc.2.seen →
      ∃ ms : List Msg, ms.length ≤ 1 ∧ (∀ m ∈ ms, md5hex m.link = j) ∧
        step acc c = (true, ⟨j :: acc.2.seen, acc.2.sent ++ ms⟩))

/-- Invariant tying sent messages to the seen set: the identifiers of the sent
links are pairwise distinct and every one of them is already in the seen set. -/
def SentInv (st : ScanState) : Prop :=
  (st.sent.map (fun m => md5hex m.link)).Nodup ∧
    ∀ m ∈ st.sent, md5hex m.link ∈ st.seen

/-! ### Correctness of the Boolean substring test -/

theorem listIsPre_iff (n h : List Char) : listIsPre n h = true ↔ n <+: h := by
  induction n generalizing h with
  | nil =>
    exact iff_of_true rfl ⟨h, rfl⟩
  | cons a n ih =>
    cases h with
    | nil =>
      simp only [listIsPre, List.prefix_nil]
      constructor
      · intro hfalse; cases hfalse
      · intro hc; cases hc
    | cons b t =>
      simp only [listIsPre, Bool.and_eq_true, beq_iff_eq, List.cons_prefix_cons, ih]

theorem listContains_iff (n h : List Char) : listContains n h = true ↔ n <:+: h := by
  induction h with
  | nil =>
    simp only [listContains, listIsPre_iff, List.infix_nil, List.prefix_nil]
  | cons b t ih =>
    simp only [listContains, Bool.or_eq_true, listIsPre_iff, ih, List.infix_cons_iff]

/-! ### The two loop bodies satisfy the step specification -/

theorem bdStep_spec : StepSpec bdStep bdIdOf := by
  intro acc c
  obtain ⟨title, href, detailOk, ai⟩ := c
  cases title with
  | none =>
    exact ⟨fun _ => rfl, fun j hj => by simp [bdIdOf] at hj,
      fun j hj => by simp [bdIdOf] at hj⟩
  | some t =>
    by_cases hmt : matchesKeywords KEYWORDS t = true
    · cases href with
      | none =>
        refine ⟨fun _ => ?_, fun j hj => ?_, fun j hj => ?_⟩
        · simp [bdStep, hmt]
        · simp [bdIdOf, hmt] at hj
        · simp [bdIdOf, hmt] at hj
      | some hr =>
        refine ⟨fun h0 => ?_, fun j hj hmem => ?_, fun j hj hmem => ?_⟩
        · simp [bdIdOf, hmt] at h0
        · simp only [bdIdOf, hmt, if_true, Option.map_some'] at hj
          obtain rfl := Option.some.inj hj
          simp [bdStep, hmt, hmem]
        · simp only [bdIdOf, hmt, if_true, Option.map_some'] at hj
          obtain rfl := Option.some.inj hj
          cases detailOk with
          | true =>
            refine ⟨[⟨SourceTag.bd, t, urljoin ("https://bdjobs.com") hr, ai⟩],
              by simp, ?_, ?_⟩
            · intro m hm
              simp only [List.mem_singleton] at hm
              subst hm
              rfl
            · simp [bdStep, hmt, hmem]
          | false =>
            refine ⟨[], by simp, by simp, ?_⟩
            simp [bdStep, hmt, hmem]
    · refine ⟨fun _ => ?_, fun j hj => ?_, fun j hj => ?_⟩
      · simp [bdStep, hmt]
      · simp [bdIdOf, hmt] at hj
      · simp [bdIdOf, hmt] at hj

theorem unStep_spec : StepSpec unStep unIdOf := by
  intro acc c
  obtain ⟨t, href, detailOk, ai⟩ := c
  by_cases hmt : matchesKeywords KEYWORDS t = true
  · cases href with
    | none =>
      refine ⟨fun _ => ?_, fun j hj => ?_, fun j hj => ?_⟩
      · simp [unStep, hmt]
      · simp [unIdOf, hmt] at hj
      · simp [unIdOf, hmt] at hj
    | some hr =>
      refine ⟨fun h0 => ?_, fun j hj hmem => ?_, fun j hj hmem => ?_⟩
      · simp [unIdOf, hmt] at h0
      · simp only [unIdOf, hmt, if_true, Option.map_some'] at hj
        obtain rfl := Option.some.inj hj
        simp [unStep, hmt, hmem]
      · simp only [unIdOf, hmt, if_true, Option.map_some'] at hj
        obtain rfl := Option.some.inj hj
        cases detailOk with
        | true =>
          refine ⟨[⟨SourceTag.un, t, urljoin ("https://unjobs.org") hr, ai⟩],
            by simp, ?_, ?_⟩
          · intro m hm
            simp only [List.mem_singleton] at hm
            subst hm
            rfl
          · simp [unStep, hmt, hmem]
        | false =>
          refine ⟨[], by simp, by simp, ?_⟩
          simp [unStep, hmt, hmem]
  · refine ⟨fun _ => ?_, fun j hj => ?_, fun j hj => ?_⟩
    · simp [unStep, hmt]
    · simp [unIdOf, hmt] at hj
    · simp [unIdOf, hmt] at hj

/-! ### Generic lemmas about folding a specification-satisfying step -/

theorem fold_delta {α : Type} {step : Bool × ScanState → α → Bool × ScanState}
    {idOf : α → Option String} (hs : StepSpec step idOf) :
    ∀ (cards : List α) (acc : Bool × ScanState),
      ∃ l : List String,
        (List.foldl step acc cards).2.seen = l ++ acc.2.seen ∧
        ((List.foldl step acc cards).1 = true ↔ (acc.1 = true ∨ l ≠ [])) ∧
        ∀ x ∈ l, x ∉ acc.2.seen := by
  intro cards
  induction cards with
  | nil =>
    intro acc
    exact ⟨[], rfl, by simp, by simp⟩
  | cons c cs ih =>
    intro acc
    obtain ⟨h0, h1, h2⟩ := hs acc c
    rcases hid : idOf c with _ | j
    · rw [List.foldl_cons, h0 hid]
      exact ih acc
    · by_cases hj : j ∈ acc.2.seen
      · rw [List.foldl_cons, h1 j hid hj]
        exact ih acc
      · obtain ⟨ms, hlen, hms, hstep⟩ := h2 j hid hj
        rw [List.foldl_cons, hstep]
        obtain ⟨l, hseen, hflag, hnew⟩ := ih (true, ⟨j :: acc.2.seen, acc.2.sent ++ ms⟩)
        refine ⟨l ++ [j], ?_, ?_, ?_⟩
        · rw [hseen]
          simp
        · rw [hflag]
          simp
        · intro x hx
          rcases List.mem_append.mp hx with hx | hx
          · have hxn := hnew x hx
            simp only [List.mem_cons, not_or] at hxn
            exact hxn.2
          · simp only [List.mem_singleton] at hx
            subst hx
            exact hj

theorem fold_mono {α : Type} {step : Bool × ScanState → α → Bool × ScanState}
    {idOf : α → Option String} (hs : StepSpec step idOf) :
    ∀ (cards : List α) (acc : Bool × ScanState) (x : String),
      x ∈ acc.2.seen → x ∈ (List.foldl step acc cards).2.seen := by
  intro cards acc x hx
  obtain ⟨l, hseen, -, -⟩ := fold_delta hs cards acc
  rw [hseen]
  exact List.mem_append.mpr (Or.inr hx)

theorem fold_complete {α : Type} {step : Bool × ScanState → α → Bool × ScanState}
    {idOf : α → Option String} (hs : StepSpec step idOf) :
    ∀ (cards : List α) (acc : Bool × ScanState) (c : α) (j : String),
      c ∈ cards → idOf c = some j → j ∈ (List.foldl step acc cards).2.seen := by
  intro cards
  induction cards with
  | nil =>
    intro acc c j hc
    cases hc
  | cons c' cs ih =>
    intro acc c j hc hid
    rcases List.mem_cons.mp hc with rfl | hc
    · obtain ⟨h0, h1, h2⟩ := hs acc c
      by_cases hj : j ∈ acc.2.seen
      · rw [List.foldl_cons, h1 j hid hj]
        exact fold_mono hs cs acc j hj
      · obtain ⟨ms, -, -, hstep⟩ := h2 j hid hj
        rw [List.foldl_cons, hstep]
        exact fold_mono hs cs _ j (List.mem_cons_self j _)
    · rw [List.foldl_cons]
      exact ih (step acc c') c j hc hid

theorem fold_stable {α : Type} {step : Bool × ScanState → α → Bool × ScanState}
    {idOf : α → Option String} (hs : StepSpec step idOf) :
    ∀ (cards : List α) (acc : Bool × ScanState),
      (∀ c ∈ cards, ∀ j, idOf c = some j → j ∈ acc.2.seen) →
      List.foldl step acc cards = acc := by
  intro cards
  induction cards with
  | nil =>
    intro acc _
    rfl
  | cons c cs ih =>
    intro acc hall
    obtain ⟨h0, h1, -⟩ := hs acc c
    rcases hid : idOf c with _ | j
    · rw [List.foldl_cons, h0 hid]
      exact ih acc (fun c hc => hall c (List.mem_cons_of_mem _ hc))
    · rw [List.foldl_cons, h1 j hid (hall c (List.mem_cons_self c cs) j hid)]
      exact ih acc (fun c hc => hall c (List.mem_cons_of_mem _ hc))

theorem fold_sentInv {α : Type} {step : Bool × ScanState → α → Bool × ScanState}
    {idOf : α → Option String} (hs : StepSpec step idOf) :
    ∀ (cards : List α) (acc : Bool × ScanState),
      SentInv acc.2 → SentInv (List.foldl step acc cards).2 := by
  intro cards
  induction cards with
  | nil =>
    intro acc h
    exact h
  | cons c cs ih =>
    intro acc hinv
    obtain ⟨h0, h1, h2⟩ := hs acc c
    rcases hid : idOf c with _ | j
    · rw [List.foldl_cons, h0 hid]
      exact ih acc hinv
    · by_cases hj : j ∈ acc.2.seen
      · rw [List.foldl_cons, h1 j hid hj]
        exact ih acc hinv
      · obtain ⟨ms, hlen, hms, hstep⟩ := h2 j hid hj
        rw [List.foldl_cons, hstep]
        apply ih
        constructor
        · simp only [List.map_append]
          rw [List.nodup_append]
          refine ⟨hinv.1, ?_, ?_⟩
          · cases ms with
            | nil => simp
            | cons m rest =>
              cases rest with
              | nil => simp
              | cons m2 r2 => simp at hlen
          · intro x hx1 hx2
            obtain ⟨m, hm, hml⟩ := List.mem_map.mp hx1
            obtain ⟨m2, hm2, hml2⟩ := List.mem_map.mp hx2
            have hj2 : x = j := by rw [← hml2, hms m2 hm2]
            have hxs : x ∈ acc.2.seen := by
              rw [← hml]
              exact hinv.2 m hm
            rw [hj2] at hxs
            exact hj hxs
        · intro m hm
          rcases List.mem_append.mp hm with hm | hm
          · exact List.mem_cons_of_mem _ (hinv.2 m hm)
          · rw [hms m hm]
            exact List.mem_cons_self j _

/-! ### Run-level lemmas -/

theorem main_run_file_eq (w : World) (h : List String) :
    (main_run w h).file =
      (if (main_run w h).wrote then (main_run w h).finalSeen else h) := by
  obtain ⟨bd, un⟩ := w
  cases bd <;> cases un <;> rfl

theorem run_delta (w : World) (h : List String) :
    ∃ l : List String,
      (main_run w h).finalSeen = l ++ h ∧
      ((main_run w h).wrote = true ↔ l ≠ []) ∧
      ∀ x ∈ l, x ∉ h := by
  obtain ⟨bd, un⟩ := w
  cases bd with
  | none =>
    cases un with
    | none =>
      exact ⟨[], rfl, by simp [main_run], by simp⟩
    | some uc =>
      obtain ⟨l, hseen, hflag, hnew⟩ := fold_delta unStep_spec uc (false, ⟨h, []⟩)
      refine ⟨l, ?_, ?_, hnew⟩
      · simpa [main_run, parse_unjobs] using hseen
      · simp only [main_run, parse_unjobs]
        simp only [Bool.false_or]
        simpa using hflag
  | some bc =>
    obtain ⟨l₁, hs1, hf1, hn1⟩ := fold_delta bdStep_spec bc (false, ⟨h, []⟩)
    cases un with
    | none =>
      refine ⟨l₁, ?_, ?_, hn1⟩
      · simpa [main_run, parse_bdjobs] using hs1
      · simp only [main_run, parse_bdjobs]
        simp only [Bool.or_false]
        simpa using hf1
    | some uc =>
      obtain ⟨l₂, hs2, hf2, hn2⟩ :=
        fold_delta unStep_spec uc (false, (List.foldl bdStep (false, ⟨h, []⟩) bc).2)
      refine ⟨l₂ ++ l₁, ?_, ?_, ?_⟩
      · simp only [main_run, parse_bdjobs, parse_unjobs]
        rw [hs2, hs1]
        simp
      · simp only [main_run, parse_bdjobs, parse_unjobs]
        rw [Bool.or_eq_true, hf2, hf1]
        simp only [Bool.false_eq_true, false_or, ne_eq, List.append_eq_nil, not_and]
        tauto
      · intro x hx
        rcases List.mem_append.mp hx with hx | hx
        · have hxn := hn2 x hx
          rw [hs1] at hxn
          simp only [List.mem_append, not_or] at hxn
          exact hxn.2
        · exact hn1 x hx

theorem main_run_file_finalSeen (w : World) (h : List String) :
    (main_run w h).file = (main_run w h).finalSeen := by
  obtain ⟨l, hseen, hwrote, -⟩ := run_delta w h
  rw [main_run_file_eq]
  by_cases hw : (main_run w h).wrote = true
  · rw [hw]
    simp
  · have hwf : (main_run w h).wrote = false := by
      cases hqw : (main_run w h).wrote
      · rfl
      · exact absurd hqw hw
    have hl : l = [] := by
      by_contra hne
      exact hw (hwrote.mpr hne)
    rw [hwf, hseen, hl]
    simp

theorem main_run_complete_bd (w : World) (h : List String) (bc : List BdCard)
    (hbd : w.bdDoc = some bc) :
    ∀ c ∈ bc, ∀ j, bdIdOf c = some j → j ∈ (main_run w h).finalSeen := by
  intro c hc j hj
  obtain ⟨bd, un⟩ := w
  simp only at hbd
  subst hbd
  have hfirst := fold_complete bdStep_spec bc (false, ⟨h, []⟩) c j hc hj
  cases un with
  | none =>
    simpa [main_run, parse_bdjobs] using hfirst
  | some uc =>
    simp only [main_run, parse_bdjobs, parse_unjobs]
    exact fold_mono unStep_spec uc _ j hfirst

theorem main_run_complete_un (w : World) (h : List String) (uc : List UnCard)
    (hun : w.unDoc = some uc) :
    ∀ c ∈ uc, ∀ j, unIdOf c = some j → j ∈ (main_run w h).finalSeen := by
  intro c hc j hj
  obtain ⟨bd, un⟩ := w
  simp only at hun
  subst hun
  cases bd with
  | none =>
    simp only [main_run, parse_unjobs]
    exact fold_complete unStep_spec uc (false, ⟨h, []⟩) c j hc hj
  | some bc =>
    simp only [main_run, parse_bdjobs, parse_unjobs]
    exact fold_complete unStep_spec uc _ c j hc hj

theorem main_run_stable (w : World) (s : List String)
    (hbd : ∀ bc, w.bdDoc = some bc → ∀ c ∈ bc, ∀ j, bdIdOf c = some j → j ∈ s)
    (hun : ∀ uc, w.unDoc = some uc → ∀ c ∈ uc, ∀ j, unIdOf c = some j → j ∈ s) :
    main_run w s = ⟨[], s, false, s⟩ := by
  obtain ⟨bd, un⟩ := w
  cases bd with
  | none =>
    cases un with
    | none => rfl
    | some uc =>
      have h2 := fold_stable unStep_spec uc (false, ⟨s, []⟩) (hun uc rfl)
      simp [main_run, parse_unjobs, h2]
  | some bc =>
    have h1 := fold_stable bdStep_spec bc (false, ⟨s, []⟩) (hbd bc rfl)
    cases un with
    | none =>
      simp [main_run, parse_bdjobs, h1]
    | some uc =>
      have h2 := fold_stable unStep_spec uc (false, ⟨s, []⟩) (hun uc rfl)
      simp only [main_run, parse_bdjobs, parse_unjobs, h1]
      simp [h2]

/-! ### The claims -/

/-- C4: the filter returns true for a title iff at least one keyword of the
configured set is a substring of the title after lower-casing both sides
(keywords are OR-ed); the empty keyword set yields false for every title
without error; and on the keyword set Consultant/Climate the title
Senior National Consultant matches while Driver Required does not. -/
theorem filter_matches_iff :
    (∀ (ks : List String) (title : String),
      matchesKeywords ks title = true ↔
        ∃ k ∈ ks, (k.toList.map Char.toLower) <:+: (title.toList.map Char.toLower)) ∧
    (∀ title : String, matchesKeywords [] title = false) ∧
    matchesKeywords ["Consultant", "Climate"] ("Senior National Consultant") = true ∧
    matchesKeywords ["Consultant", "Climate"] ("Driver Required") = false := by
  refine ⟨?_, fun _ => rfl, by decide, by decide⟩
  intro ks title
  simp only [matchesKeywords, List.any_eq_true, listContains_iff]

/-- C5: the posting identifier is a pure deterministic digest of the normalized
absolute URL: the same URL always digests to the same identifier (the function
takes no state, time or randomness), and a relative href resolved against the
source's base URL yields the same identifier as the equivalent already-absolute
URL. -/
theorem identify_pure_and_normalized :
    (∀ u : String, md5hex u = md5hex u) ∧
    (∀ base href absu : String, urljoin base href = absu →
      md5hex (urljoin base href) = md5hex absu) :=
  ⟨fun _ => rfl, fun _ _ _ hju => congrArg md5hex hju⟩

/-- Witness for C5 at the spec's own example: `/jobs/123` resolved against
`https://bdjobs.com`. -/
theorem identify_pure_and_normalized_witness :
    urljoin ("https://bdjobs.com") ("/jobs/123") = "https://bdjobs.com/jobs/123" ∧
    md5hex (urljoin ("https://bdjobs.com") ("/jobs/123")) =
      md5hex ("https://bdjobs.com/jobs/123") :=
  ⟨by decide,
    identify_pure_and_normalized.2 ("https://bdjobs.com") ("/jobs/123")
      ("https://bdjobs.com/jobs/123") (by decide)⟩

/-- C2: a matching posting that is not yet in the history set is added to the
in-memory seen set, and the changed flag is set, whatever the outcome of the
later detail fetch (`d`) and summarization (`a`) — so no failure of those
steps prevents the posting from being recorded as seen, in either parser. -/
theorem mark_seen_before_enrichment :
    ∀ (t href : String) (d : Bool) (a : Option AiData) (b : Bool) (st : ScanState),
      matchesKeywords KEYWORDS t = true →
      (md5hex (urljoin ("https://bdjobs.com") href) ∉ st.seen →
        (bdStep (b, st) ⟨some t, some href, d, a⟩).2.seen =
            md5hex (urljoin ("https://bdjobs.com") href) :: st.seen ∧
          (bdStep (b, st) ⟨some t, some href, d, a⟩).1 = true) ∧
      (md5hex (urljoin ("https://unjobs.org") href) ∉ st.seen →
        (unStep (b, st) ⟨t, some href, d, a⟩).2.seen =
            md5hex (urljoin ("https://unjobs.org") href) :: st.seen ∧
          (unStep (b, st) ⟨t, some href, d, a⟩).1 = true) := by
  intro t href d a b st hmt
  constructor
  · intro hmem
    cases d <;> simp [bdStep, hmt, hmem]
  · intro hmem
    cases d <;> simp [unStep, hmt, hmem]

/-- Witness for C2: a concrete fresh matching card, with both later steps
failing (`detailOk = false`, summarizer `none`), is still recorded. -/
theorem mark_seen_before_enrichment_witness :
    matchesKeywords KEYWORDS ("Individual Consultant") = true ∧
    md5hex (urljoin ("https://bdjobs.com") ("/x")) ∉ ([] : List String) ∧
    md5hex (urljoin ("https://unjobs.org") ("/x")) ∉ ([] : List String) ∧
    (bdStep (false, ⟨[], []⟩)
        ⟨some ("Individual Consultant"), some ("/x"), false, none⟩).2.seen =
      md5hex (urljoin ("https://bdjobs.com") ("/x")) :: [] ∧
    (bdStep (false, ⟨[], []⟩)
        ⟨some ("Individual Consultant"), some ("/x"), false, none⟩).1 = true ∧
    (unStep (false, ⟨[], []⟩)
        ⟨("Individual Consultant"), some ("/x"), false, none⟩).2.seen =
      md5hex (urljoin ("https://unjobs.org") ("/x")) :: [] ∧
    (unStep (false, ⟨[], []⟩)
        ⟨("Individual Consultant"), some ("/x"), false, none⟩).1 = true := by
  have hmt : matchesKeywords KEYWORDS ("Individual Consultant") = true := by decide
  have hall := mark_seen_before_enrichment ("Individual Consultant") ("/x")
    false none false ⟨[], []⟩ hmt
  have hbd := hall.1 (by simp)
  have hun := hall.2 (by simp)
  exact ⟨hmt, by simp, by simp, hbd.1, hbd.2, hun.1, hun.2⟩

/-- C3 counterexample: a fresh matching card whose detail-page fetch raises
(`detailOk = false`). The claim says the notification is still sent
(title-only); in the code the per-card `except: pass` absorbs the raise after
the posting was marked seen and **no** message reaches `send_telegram`: the
sent list stays empty while the identifier is in the seen set. -/
theorem detail_fetch_failure_drops_notification :
    (parse_bdjobs [⟨some ("Individual Consultant"), some ("/jobs/1"), false, none⟩]
        ⟨[], []⟩).2.sent = [] ∧
    md5hex (urljoin ("https://bdjobs.com") ("/jobs/1")) ∈
      (parse_bdjobs [⟨some ("Individual Consultant"), some ("/jobs/1"), false, none⟩]
        ⟨[], []⟩).2.seen := by
  have hmt : matchesKeywords KEYWORDS ("Individual Consultant") = true := by decide
  constructor
  · simp [parse_bdjobs, bdStep, hmt]
  · simp [parse_bdjobs, bdStep, hmt]

/-- C3 (amended): for a fresh matching posting, if the detail-page fetch
succeeds but summarization fails or is unconfigured (`ai = none`), the posting
is marked seen and a notification carrying only the title and the link (no
enrichment fields) is sent; if the detail-page fetch itself raises
(`detailOk = false`), the posting is still marked seen but the notification is
skipped.  Both parsers. -/
theorem enrichment_degradation_amended :
    ∀ (t href : String) (b : Bool) (st : ScanState),
      matchesKeywords KEYWORDS t = true →
      (md5hex (urljoin ("https://bdjobs.com") href) ∉ st.seen →
        (bdStep (b, st) ⟨some t, some href, true, none⟩).2.sent =
            st.sent ++ [⟨SourceTag.bd, t, urljoin ("https://bdjobs.com") href, none⟩] ∧
          renderMsg ⟨SourceTag.bd, t, urljoin ("https://bdjobs.com") href, none⟩ =
            "🔔 **New BdJobs Circular!**" ++ "\n\n📌 *Post:* [" ++ t ++ "](" ++
              urljoin ("https://bdjobs.com") href ++ ")" ∧
          (bdStep (b, st) ⟨some t, some href, true, none⟩).2.seen =
            md5hex (urljoin ("https://bdjobs.com") href) :: st.seen ∧
          (bdStep (b, st) ⟨some t, some href, false, none⟩).2.sent = st.sent ∧
          (bdStep (b, st) ⟨some t, some href, false, none⟩).2.seen =
            md5hex (urljoin ("https://bdjobs.com") href) :: st.seen) ∧
      (md5hex (urljoin ("https://unjobs.org") href) ∉ st.seen →
        (unStep (b, st) ⟨t, some href, true, none⟩).2.sent =
            st.sent ++ [⟨SourceTag.un, t, urljoin ("https://unjobs.org") href, none⟩] ∧
          renderMsg ⟨SourceTag.un, t, urljoin ("https://unjobs.org") href, none⟩ =
            "🇺🇳 **New UN Job Detected!**" ++ "\n\n📌 *Post:* [" ++ t ++ "](" ++
              urljoin ("https://unjobs.org") href ++ ")" ∧
          (unStep (b, st) ⟨t, some href, true, none⟩).2.seen =
            md5hex (urljoin ("https://unjobs.org") href) :: st.seen ∧
          (unStep (b, st) ⟨t, some href, false, none⟩).2.sent = st.sent ∧
          (unStep (b, st) ⟨t, some href, false, none⟩).2.seen =
            md5hex (urljoin ("https://unjobs.org") href) :: st.seen) := by
  intro t href b st hmt
  constructor
  · intro hmem
    refine ⟨?_, rfl, ?_, ?_, ?_⟩ <;> simp [bdStep, hmt, hmem]
  · intro hmem
    refine ⟨?_, rfl, ?_, ?_, ?_⟩ <;> simp [unStep, hmt, hmem]

/-- Witness for C3 (amended) at a concrete fresh matching card. -/
theorem enrichment_degradation_amended_witness :
    matchesKeywords KEYWORDS ("Individual Consultant") = true ∧
    md5hex (urljoin ("https://bdjobs.com") ("/y")) ∉ ([] : List String) ∧
    md5hex (urljoin ("https://unjobs.org") ("/y")) ∉ ([] : List String) ∧
    (bdStep (false, ⟨[], []⟩)
        ⟨some ("Individual Consultant"), some ("/y"), true, none⟩).2.sent =
      [⟨SourceTag.bd, ("Individual Consultant"),
        urljoin ("https://bdjobs.com") ("/y"), none⟩] ∧
    (bdStep (false, ⟨[], []⟩)
        ⟨some ("Individual Consultant"), some ("/y"), false, none⟩).2.sent = [] ∧
    (bdStep (false, ⟨[], []⟩)
        ⟨some ("Individual Consultant"), some ("/y"), false, none⟩).2.seen =
      md5hex (urljoin ("https://bdjobs.com") ("/y")) :: [] ∧
    (unStep (false, ⟨[], []⟩)
        ⟨("Individual Consultant"), some ("/y"), true, none⟩).2.sent =
      [⟨SourceTag.un, ("Individual Consultant"),
        urljoin ("https://unjobs.org") ("/y"), none⟩] ∧
    (unStep (false, ⟨[], []⟩)
        ⟨("Individual Consultant"), some ("/y"), false, none⟩).2.sent = [] := by
  have hmt : matchesKeywords KEYWORDS ("Individual Consultant") = true := by decide
  have hall := enrichment_degradation_amended ("Individual Consultant") ("/y")
    false ⟨[], []⟩ hmt
  have hbd := hall.1 (by simp)
  have hun := hall.2 (by simp)
  exact ⟨hmt, by simp, by simp, hbd.1, hbd.2.2.2.1, hbd.2.2.2.2, hun.1, hun.2.2.2.1⟩

/-- C1: running `main` a second time over the same source documents, starting
from the history file the first run left behind, produces zero notifications,
leaves the in-memory history set equal to the first run's, does not call
`save_history`, and leaves the history file exactly as the first run left it. -/
theorem second_run_idempotent :
    ∀ (w : World) (h : List String),
      (main_run w (main_run w h).file).sent = [] ∧
      (main_run w (main_run w h).file).finalSeen = (main_run w h).finalSeen ∧
      (main_run w (main_run w h).file).wrote = false ∧
      (main_run w (main_run w h).file).file = (main_run w h).file := by
  intro w h
  have hfile := main_run_file_finalSeen w h
  have hstable : main_run w (main_run w h).finalSeen =
      ⟨[], (main_run w h).finalSeen, false, (main_run w h).finalSeen⟩ := by
    apply main_run_stable
    · intro bc hbd c hc j hj
      exact main_run_complete_bd w h bc hbd c hc j hj
    · intro uc hun c hc j hj
      exact main_run_complete_un w h uc hun c hc j hj
  rw [hfile, hstable]
  exact ⟨rfl, rfl, rfl, rfl⟩

/-- C6: `save_history` is called at end of run iff at least one identifier not
already in the loaded history was added during the run; when nothing new was
added the history file's contents are left untouched. -/
theorem history_saved_iff_new :
    ∀ (w : World) (h : List String),
      ((main_run w h).wrote = true ↔
        ∃ x, x ∈ (main_run w h).finalSeen ∧ x ∉ h) ∧
      ((main_run w h).wrote = false → (main_run w h).file = h) := by
  intro w h
  obtain ⟨l, hseen, hwrote, hnew⟩ := run_delta w h
  constructor
  · rw [hwrote]
    constructor
    · intro hne
      obtain ⟨x, hx⟩ := List.exists_mem_of_ne_nil l hne
      refine ⟨x, ?_, hnew x hx⟩
      rw [hseen]
      exact List.mem_append.mpr (Or.inl hx)
    · rintro ⟨x, hx1, hx2⟩
      rw [hseen] at hx1
      rcases List.mem_append.mp hx1 with hx | hx
      · intro hl
        subst hl
        cases hx
      · exact absurd hx hx2
  · intro hw
    have hl : l = [] := by
      by_contra hne
      have := hwrote.mpr hne
      rw [hw] at this
      cases this
    rw [main_run_file_eq, hw]
    simp

/-- Witness for C6 on a concrete no-change run: both sources fail, nothing is
added, `save_history` is not called and the file is untouched. -/
theorem history_saved_iff_new_witness :
    (main_run ⟨none, none⟩ ["a"]).wrote = false ∧
    (main_run ⟨none, none⟩ ["a"]).file = ["a"] :=
  ⟨rfl, (history_saved_iff_new ⟨none, none⟩ ["a"]).2 rfl⟩

/-- C7: when one configured source's listing fetch or parse raises, the run is
exactly the run over the remaining source alone — its postings are still
detected, filtered, deduplicated against the shared history and notified — and
the failed source contributes no history entries; when both fail the run is a
no-op that leaves the file alone. -/
theorem source_failure_isolated :
    ∀ (h : List String),
      (∀ uc : List UnCard,
        (main_run ⟨none, some uc⟩ h).sent = (parse_unjobs uc ⟨h, []⟩).2.sent ∧
        (main_run ⟨none, some uc⟩ h).finalSeen = (parse_unjobs uc ⟨h, []⟩).2.seen ∧
        (main_run ⟨none, some uc⟩ h).wrote = (parse_unjobs uc ⟨h, []⟩).1) ∧
      (∀ bc : List BdCard,
        (main_run ⟨some bc, none⟩ h).sent = (parse_bdjobs bc ⟨h, []⟩).2.sent ∧
        (main_run ⟨some bc, none⟩ h).finalSeen = (parse_bdjobs bc ⟨h, []⟩).2.seen ∧
        (main_run ⟨some bc, none⟩ h).wrote = (parse_bdjobs bc ⟨h, []⟩).1) ∧
      main_run ⟨none, none⟩ h = ⟨[], h, false, h⟩ := by
  intro h
  refine ⟨fun uc => ⟨rfl, rfl, ?_⟩, fun bc => ⟨rfl, rfl, ?_⟩, rfl⟩
  · simp [main_run]
  · simp [main_run]

/-- C8 counterexample: it is not the case that every network call site of the
program passes a fixed finite timeout — the per-posting detail-page fetch
(lines 103/140) and the summarization request (line 60) pass none. -/
theorem timeout_claim_refuted : networkTimeouts.all Option.isSome = false := by
  decide

/-- C8 (amended): the listing-page fetch carries a fixed 20-second timeout and
the notification send a fixed 10-second timeout, but the per-posting
detail-page fetch and the summarization request pass no timeout argument and
may block indefinitely. -/
theorem network_timeouts_amended :
    listingFetchTimeout = some 20 ∧ telegramSendTimeout = some 10 ∧
    detailFetchTimeout = none ∧ summaryRequestTimeout = none :=
  ⟨rfl, rfl, rfl, rfl⟩

/-- C9: a run raises a process-fatal error iff reading the history file fails,
or the run added something and rewriting the history file fails; with the
history file readable and writable, every world — including ones where every
source fetch, card extraction, detail fetch and summarization fails — yields a
normal completion. -/
theorem fatal_iff_history_io :
    ∀ (readOk saveOk : Bool) (histFile : List String) (w : World),
      (isFatal (main_run_hist readOk histFile saveOk w) = true ↔
        readOk = false ∨ ((main_run w histFile).wrote = true ∧ saveOk = false)) ∧
      main_run_hist true histFile true w = Except.ok (main_run w histFile) := by
  intro readOk saveOk histFile w
  constructor
  · cases readOk with
    | false => simp [main_run_hist, isFatal]
    | true =>
      by_cases hc : (main_run w histFile).wrote = true ∧ saveOk = false
      · simp [main_run_hist, isFatal, hc]
      · simp [main_run_hist, isFatal, hc]
  · simp [main_run_hist, isFatal]

/-- C10: within a single run, at most one notification is sent per posting
identifier — across both parsers, which share the seen set: the identifiers of
the sent links are pairwise distinct, and each of them is in the final seen
set. -/
theorem notify_at_most_once_per_id :
    ∀ (w : World) (h : List String),
      ((main_run w h).sent.map (fun m => md5hex m.link)).Nodup ∧
      ∀ m ∈ (main_run w h).sent, md5hex m.link ∈ (main_run w h).finalSeen := by
  intro w h
  have hinv : SentInv ⟨h, []⟩ := ⟨by simp, by simp⟩
  obtain ⟨bd, un⟩ := w
  cases bd with
  | none =>
    cases un with
    | none =>
      exact ⟨by simp [main_run], by simp [main_run]⟩
    | some uc =>
      obtain ⟨hn, hm⟩ := fold_sentInv unStep_spec uc (false, ⟨h, []⟩) hinv
      exact ⟨hn, hm⟩
  | some bc =>
    have h1 := fold_sentInv bdStep_spec bc (false, ⟨h, []⟩) hinv
    cases un with
    | none =>
      obtain ⟨hn, hm⟩ := h1
      exact ⟨hn, hm⟩
    | some uc =>
      obtain ⟨hn, hm⟩ :=
        fold_sentInv unStep_spec uc
          (false, (List.foldl bdStep (false, ⟨h, []⟩) bc).2) h1
      exact ⟨hn, hm⟩
